import Mathlib

/-!
# Verification of the data-cleaning pipeline (`pycode.py`)

A shallow embedding of the pandas data-cleaning script: a `Table` is an
ordered list of column headers (name and dtype) together with a list of
rows, each row a list of cells.  Machine floats are modelled as exact
rationals (`ℚ`); missing values (`NaN`/`NaT`/`None`) are the `Cell.null`
constructor.  Library calls (`pd.to_datetime`, `str.strip`, `str.lower`,
`Series.quantile`, regex extraction) are modelled by executable Lean
functions whose doc comments state the modelled scope.

Aliasing of dataframes (mutation in place versus operating on a copy) is
made observable by a store model: a store is a list of tables and a
dataframe reference is an index into it.
-/

namespace DataClean

/-! ## Values and cells -/

/-- pandas column dtype as used by the script: `object` (text), `int64`/`float64`
(both modelled as `num`), and `datetime64` (`date`). -/
inductive Dtype
  | obj
  | num
  | date
deriving DecidableEq, Repr

/-- A calendar date (model of a pandas `Timestamp` at day resolution). -/
structure YMDate where
  year : Nat
  month : Nat
  day : Nat
deriving DecidableEq, Repr

/-- A single cell of the table: a string, a number (exact-rational model of
float64/int64), a datetime, or a missing value (`NaN`/`NaT`). -/
inductive Cell
  | s (v : String)
  | n (v : ℚ)
  | d (v : YMDate)
  | null
deriving DecidableEq, Repr

/-! ## Models of the Python string library -/

/-- Model of Python `str.strip()` (restricted to the whitespace characters
of `Char.isWhitespace`): drop whitespace from both ends. -/
def stripChars (cs : List Char) : List Char :=
  ((cs.dropWhile Char.isWhitespace).reverse.dropWhile Char.isWhitespace).reverse

/-- Model of Python `str.strip()` on a `String`. -/
def pyStrip (s : String) : String := ⟨stripChars s.data⟩

/-- Model of Python `str.lower()` for one character (ASCII range; the
script's data is ASCII). -/
def lowerChar (c : Char) : Char :=
  if 'A' ≤ c ∧ c ≤ 'Z' then Char.ofNat (c.toNat + 32) else c

/-- Model of Python `str.lower()`. -/
def pyLower (s : String) : String := ⟨s.data.map lowerChar⟩

/-! ## Dates: model of `pd.to_datetime(·, errors='coerce')` and `strftime('%Y-%m-%d')` -/

def isLeap (y : Nat) : Bool := (y % 4 == 0 && y % 100 != 0) || y % 400 == 0

def daysInMonth (y m : Nat) : Nat :=
  if m = 2 then (if isLeap y then 29 else 28)
  else if m = 4 ∨ m = 6 ∨ m = 9 ∨ m = 11 then 30
  else 31

/-- Whether `y-m-d` is a real calendar date. -/
def validYMD (y m d : Nat) : Bool :=
  decide (1 ≤ m) && decide (m ≤ 12) && decide (1 ≤ d) && decide (d ≤ daysInMonth y m)

def digitVal (c : Char) : Nat := c.toNat - '0'.toNat

/-- Read a digit string (most significant first) as a natural number. -/
def readNat (cs : List Char) : Nat := cs.foldl (fun a c => 10 * a + digitVal c) 0

def digitChar (k : Nat) : Char := Char.ofNat (48 + k)

/-- `%Y`: the year zero-padded to four digits (the script's dates all have
four-digit years). -/
def pad4 (n : Nat) : List Char :=
  [digitChar (n / 1000 % 10), digitChar (n / 100 % 10), digitChar (n / 10 % 10),
    digitChar (n % 10)]

/-- `%m` / `%d`: a number zero-padded to two digits. -/
def pad2 (n : Nat) : List Char :=
  [digitChar (n / 10 % 10), digitChar (n % 10)]

/-- Model of `Timestamp.strftime('%Y-%m-%d')` (line 56). -/
def formatDate (dt : YMDate) : String :=
  ⟨pad4 dt.year ++ '-' :: (pad2 dt.month ++ '-' :: pad2 dt.day)⟩

/-- Parser underlying the `pd.to_datetime` model: accepts exactly the
canonical 10-character `YYYY-MM-DD` form of a real calendar date. -/
def parseChars : List Char → Option YMDate
  | [y1, y2, y3, y4, s1, m1, m2, s2, d1, d2] =>
    if s1 = '-' ∧ s2 = '-' ∧ ([y1, y2, y3, y4, m1, m2, d1, d2].all Char.isDigit) then
      let y := readNat [y1, y2, y3, y4]
      let m := readNat [m1, m2]
      let d := readNat [d1, d2]
      if validYMD y m d then some ⟨y, m, d⟩ else none
    else none
  | _ => none

/-- Model of `pd.to_datetime(x, errors='coerce')` on a scalar string
(lines 53, 59, 60 and 85 of `pycode.py`): `some` date on success, `none`
(= `NaT`) otherwise.  The model is restricted to the canonical ISO
`YYYY-MM-DD` format; other formats pandas would recognize are outside the
model and treated as unparseable, and the nanosecond `Timestamp` range
restriction is not modelled. -/
def parseDate (s : String) : Option YMDate := parseChars s.data

/-- Model of `Series.astype(str)` on one cell: strings unchanged, missing
values become the literal string `"nan"` (non-string non-null cells are
outside the modelled scope and map to `""`). -/
def cellToStr : Cell → String
  | .s v => v
  | .null => "nan"
  | _ => ""

/-- Lines 52–56 composed per cell on the string value of `date_added`:
strip, coerce via `to_datetime`, then `strftime('%Y-%m-%d')` for valid
dates and `''` for `NaT`. -/
def dateNormalizeStr (s : String) : String :=
  match parseDate (pyStrip s) with
  | some dt => formatDate dt
  | none => ""

/-- Line 59 per cell: `pd.to_datetime(·, errors='coerce').dt.year` applied
to the already-normalized string column (null for `NaT`). -/
def yearCellOf : Cell → Cell
  | .s v => match parseDate v with
    | some dt => .n (dt.year : ℚ)
    | none => .null
  | _ => .null

/-- Line 60 per cell: month counterpart of `yearCellOf`. -/
def monthCellOf : Cell → Cell
  | .s v => match parseDate v with
    | some dt => .n (dt.month : ℚ)
    | none => .null
  | _ => .null

/-! ## Duration: model of `str.extract` with the script's regexes (lines 65–66) -/

/-- Model of `re.search(r'(\d+)', s)`: the first maximal run of digit
characters, `none` (= `NaN`) when the string has no digit. -/
def extractDigits (cs : List Char) : Option (List Char) :=
  match cs.dropWhile (fun c => !c.isDigit) with
  | [] => none
  | rest@(_ :: _) => some (rest.takeWhile Char.isDigit)

/-- Model of `re.search(r'(\D+)', s)`: the first maximal run of non-digit
characters, `none` (= `NaN`) when the string consists of digits only. -/
def extractNonDigits (cs : List Char) : Option (List Char) :=
  match cs.dropWhile Char.isDigit with
  | [] => none
  | rest@(_ :: _) => some (rest.takeWhile (fun c => !c.isDigit))

/-- Line 65 per cell: `df['duration'].str.extract(r'(\d+)').astype(float)`.
`.str` on a non-string (including `NaN`) yields `NaN`. -/
def durationValueCell : Cell → Cell
  | .s v => match extractDigits v.data with
    | some ds => .n (readNat ds : ℚ)
    | none => .null
  | _ => .null

/-- Line 66 per cell: `df['duration'].str.extract(r'(\D+)').fillna('min')`. -/
def durationUnitCell : Cell → Cell
  | .s v => match extractNonDigits v.data with
    | some us => .s ⟨us⟩
    | none => .s "min"
  | _ => .s "min"

/-! ## Quantiles: model of `Series.quantile(p, interpolation='linear')` and `Series.median()` -/

/-- Floor of a nonnegative rational as a natural number. -/
def natFloor (q : ℚ) : Nat := q.num.toNat / q.den

/-- Linear interpolation through the order statistics `xs` (sorted) at
position `h`: `xs[⌊h⌋] + (h - ⌊h⌋) * (xs[⌊h⌋+1] - xs[⌊h⌋])`. -/
def interpAt (xs : List ℚ) (h : ℚ) : ℚ :=
  let i := natFloor h
  let x0 := xs.getD i 0
  let x1 := xs.getD (i + 1) x0
  x0 + (h - (i : ℚ)) * (x1 - x0)

/-- Linear-interpolation quantile of an already sorted list, as numpy and
pandas compute it: interpolate at position `p * (n - 1)`. -/
def quantileSorted (xs : List ℚ) (p : ℚ) : Option ℚ :=
  if xs.isEmpty then none
  else some (interpAt xs (p * ((xs.length : ℚ) - 1)))

def sortQ (xs : List ℚ) : List ℚ := List.insertionSort (· ≤ ·) xs

/-- Model of `Series.quantile(p)` on a column: `NaN` cells are dropped, the
rest sorted, then linearly interpolated; `none` (= `NaN`) on an empty or
all-null column. -/
def colQuantile (cells : List (Option ℚ)) (p : ℚ) : Option ℚ :=
  quantileSorted (sortQ (cells.filterMap id)) p

/-- Model of `Series.median()` (equals the linear 0.5-quantile). -/
def colMedian (cells : List (Option ℚ)) : Option ℚ := colQuantile cells (1/2)

/-! ## The table model -/

/-- An in-memory dataframe: ordered column headers (name, dtype) and rows of
cells.  Well-formed tables have every row of the same length as the header
list (`rowsWF`). -/
structure Table where
  headers : List (String × Dtype)
  rows : List (List Cell)
deriving DecidableEq, Repr

instance : Inhabited Table := ⟨⟨[], []⟩⟩

def colNames (t : Table) : List String := t.headers.map Prod.fst

/-- Model of `df.columns.get_loc(name)` / the position of a named column:
index of the first header with that name. -/
def colIdx (t : Table) (name : String) : Option Nat :=
  t.headers.findIdx? (fun p => p.1 == name)

def dtypeAt (t : Table) (j : Nat) : Dtype := (t.headers.getD j ("", .obj)).2

def cellAt (r : List Cell) (j : Nat) : Cell := r.getD j .null

def rowsWF (t : Table) : Bool := t.rows.all (fun r => r.length == t.headers.length)

def cellOfTy : Dtype → Cell → Bool
  | _, .null => true
  | .obj, .s _ => true
  | .num, .n _ => true
  | .date, .d _ => true
  | _, _ => false

/-- Every cell agrees with its column's dtype (or is null), as holds for a
dataframe produced by `pd.read_csv`. -/
def wellTyped (t : Table) : Bool :=
  t.rows.all fun r =>
    (List.range t.headers.length).all fun j => cellOfTy (dtypeAt t j) (cellAt r j)

/-- Model of the pandas column assignment `df[name] = <f applied row-wise>`:
if a column of that name exists its cells (and dtype) are replaced in
place, otherwise a new column is appended on the right. -/
def setColRowwise (t : Table) (name : String) (ty : Dtype) (f : List Cell → Cell) : Table :=
  match colIdx t name with
  | some j => { headers := t.headers.set j (name, ty), rows := t.rows.map fun r => r.set j (f r) }
  | none => { headers := t.headers ++ [(name, ty)], rows := t.rows.map fun r => r ++ [f r] }

/-- Model of `df.drop(name, axis=1)`. -/
def dropCol (t : Table) (name : String) : Table :=
  match colIdx t name with
  | some j => { headers := t.headers.eraseIdx j, rows := t.rows.map fun r => r.eraseIdx j }
  | none => t

/-- The numeric view of column `j`: `some v` for number cells, `none`
(missing) otherwise. -/
def numColOf (t : Table) (j : Nat) : List (Option ℚ) :=
  t.rows.map fun r =>
    match cellAt r j with
    | .n v => some v
    | _ => none

/-! ## The cleaning pipeline (`clean_data`, lines 31–79) -/

/-- Step 1 per cell: `fillna('Unknown')` for object columns,
`fillna(median)` for numeric columns (`fillna(NaN)` is a no-op when the
median of an all-null column is itself `NaN`). -/
def fillCell (ty : Dtype) (med : Option ℚ) : Cell → Cell
  | .null =>
    match ty with
    | .obj => .s "Unknown"
    | .num => match med with | some m => .n m | none => .null
    | .date => .null
  | c => c

/-- Step 1 (lines 36–42): missing-value imputation. -/
def fillMissing (t : Table) : Table :=
  { t with
    rows := t.rows.map fun r =>
      r.mapIdx fun j c => fillCell (dtypeAt t j) (colMedian (numColOf t j)) c }

/-- Step 2 per cell on an object column: `.str.strip().str.lower()`; `.str`
maps every non-string (including `NaN`) to `NaN`. -/
def textNormCell : Cell → Cell
  | .s v => .s (pyLower (pyStrip v))
  | _ => .null

/-- Step 2 (lines 44–48): text normalization of every object column. -/
def textNormalize (t : Table) : Table :=
  { t with
    rows := t.rows.map fun r =>
      r.mapIdx fun j c => if dtypeAt t j = .obj then textNormCell c else c }

/-- Step 3 (lines 51–61): only when a `date_added` column exists, normalize
it to `YYYY-MM-DD` strings (empty when unparseable) and derive `year_added`
and `month_added` by re-parsing the normalized column. -/
def processDates (t : Table) : Table :=
  match colIdx t "date_added" with
  | none => t
  | some jd =>
    let t1 := setColRowwise t "date_added" .obj fun r =>
      .s (dateNormalizeStr (cellToStr (cellAt r jd)))
    let t2 := setColRowwise t1 "year_added" .num fun r => yearCellOf (cellAt r jd)
    setColRowwise t2 "month_added" .num fun r => monthCellOf (cellAt r jd)

/-- Step 4 (lines 64–68): only when a `duration` column exists, derive
`duration_value` and `duration_unit` from it, then drop it. -/
def processDuration (t : Table) : Table :=
  match colIdx t "duration" with
  | none => t
  | some jd =>
    let t1 := setColRowwise t "duration_value" .num fun r => durationValueCell (cellAt r jd)
    let t2 := setColRowwise t1 "duration_unit" .obj fun r => durationUnitCell (cellAt r jd)
    dropCol t2 "duration"

/-- Model of `df.drop_duplicates()` on the row list: keep the first
occurrence of each row, preserving order (generic over the row type). -/
def dropDupAux {α : Type} [DecidableEq α] (seen : List α) : List α → List α
  | [] => []
  | r :: rs => if r ∈ seen then dropDupAux seen rs else r :: dropDupAux (r :: seen) rs

def drop_duplicates {α : Type} [DecidableEq α] (rows : List α) : List α :=
  dropDupAux [] rows

/-- Step 5 (lines 70–72): deduplication. -/
def dedupStep (t : Table) : Table := { t with rows := drop_duplicates t.rows }

/-- pandas `Series.clip(lower, upper)` on one value. -/
def clipQ (lo hi v : ℚ) : ℚ := min (max v lo) hi

/-- Lines 23–27: the IQR clipping bounds of numeric column `j`
(`none` when the column has no non-null value, in which case `clip(NaN,
NaN)` is a no-op). -/
def outlierBounds (t : Table) (j : Nat) : Option (ℚ × ℚ) :=
  match colQuantile (numColOf t j) (1/4), colQuantile (numColOf t j) (3/4) with
  | some q1, some q3 => some (q1 - 3/2 * (q3 - q1), q3 + 3/2 * (q3 - q1))
  | _, _ => none

def clipCell (b : Option (ℚ × ℚ)) : Cell → Cell
  | .n v => match b with | some (lo, hi) => .n (clipQ lo hi v) | none => .n v
  | c => c

/-- Step 6 (`handle_outliers`, lines 20–29, applied at lines 74–77): clip
every numeric column to `[Q1 - 1.5*IQR, Q3 + 1.5*IQR]`; null cells stay
null. -/
def handle_outliers (t : Table) : Table :=
  { t with
    rows := t.rows.map fun r =>
      r.mapIdx fun j c => if dtypeAt t j = .num then clipCell (outlierBounds t j) c else c }

/-- `clean_data`'s body after the `df.copy()` (lines 33–79): the six
cleaning steps in order. -/
def cleanTable (t : Table) : Table :=
  handle_outliers (dedupStep (processDuration (processDates (textNormalize (fillMissing t)))))

/-- Store-level model of `clean_data` (lines 31–79): dataframes live in a
store (list of tables) and a reference is an index.  Line 33
(`df = df.copy()`) allocates a fresh table, so the function appends the
cleaned copy and returns its reference; no existing entry is written. -/
def clean_data (s : List Table) (i : Nat) : List Table × Nat :=
  (s ++ [cleanTable (s.getD i default)], s.length)

/-! ## The loader (`load_data`, lines 9–18) -/

inductive LoadError
  | fileNotFound (msg : String)
  | loadFailed (msg : String)
deriving DecidableEq, Repr

/-- Model of `load_data`.  The file system / csv reader is an oracle `fs`:
`none` means the path does not exist (`pd.read_csv` raises
`FileNotFoundError`), `some (.error e)` any other read failure, and
`some (.ok t)` a successful parse. -/
def load_data (fs : String → Option (Except String Table)) (path : String) :
    Except LoadError Table :=
  match fs path with
  | none => .error (.fileNotFound ("Could not find the file at " ++ path))
  | some (.error e) => .error (.loadFailed ("Error loading data: " ++ e))
  | some (.ok t) => .ok t

/-! ## The exporter (`save_cleaned_data`, lines 81–124) -/

/-- Line 85 per cell: `pd.to_datetime(df['date_added'], errors='coerce')`
on the cleaned string column. -/
def toDatetimeCell : Cell → Cell
  | .s v => match parseDate v with | some dt => .d dt | none => .null
  | .d dt => .d dt
  | _ => .null

/-- Lines 84–85: when `date_added` exists, its column is reassigned (in
place, no copy) to parsed datetime values. -/
def saveTransformTable (t : Table) : Table :=
  match colIdx t "date_added" with
  | none => t
  | some jd => setColRowwise t "date_added" .date fun r => toDatetimeCell (cellAt r jd)

/-- Observable outcome of `save_cleaned_data`: which files were written
(with their contents), whether the error message was printed, and whether
an exception escaped to the caller. -/
structure SaveResult where
  fullFile : Option Table
  sampleFile : Option Table
  errorLogged : Bool
  raised : Bool
deriving DecidableEq, Repr

/-- Store-level model of `save_cleaned_data` (lines 81–124).  The flags
`fullFails`/`sampleFails` say whether the corresponding `ExcelWriter`
block raises.  The whole body is a single `try`, whose `except` (lines
123–124) prints the error and swallows it, so a failure in the full export
skips the sample export; the `date_added` reassignment (lines 84–85)
happens first and mutates the stored table in place. -/
def save_cleaned_data (s : List Table) (i : Nat) (fullFails sampleFails : Bool) :
    List Table × SaveResult :=
  let t' := saveTransformTable (s.getD i default)
  let s' := s.set i t'
  if fullFails then (s', ⟨none, none, true, false⟩)
  else if sampleFails then (s', ⟨some t', none, true, false⟩)
  else (s', ⟨some t', some { t' with rows := t'.rows.take 100 }, false, false⟩)

/-! ## List helper lemmas -/

theorem getD_eraseIdx_of_lt {α : Type} (l : List α) (k j : Nat) (d : α) (h : j < k) :
    (l.eraseIdx k).getD j d = l.getD j d := by
  induction l generalizing k j with
  | nil => simp [List.eraseIdx]
  | cons a l ih =>
    cases k with
    | zero => omega
    | succ k =>
      cases j with
      | zero => simp
      | succ j =>
        rw [List.eraseIdx_cons_succ, List.getD_cons_succ, List.getD_cons_succ]
        exact ih k j (by omega)

theorem getD_eraseIdx_of_ge {α : Type} (l : List α) (k j : Nat) (d : α) (h : k ≤ j) :
    (l.eraseIdx k).getD j d = l.getD (j + 1) d := by
  induction l generalizing k j with
  | nil => simp [List.eraseIdx]
  | cons a l ih =>
    cases k with
    | zero => simp
    | succ k =>
      cases j with
      | zero => omega
      | succ j =>
        rw [List.eraseIdx_cons_succ, List.getD_cons_succ, List.getD_cons_succ]
        exact ih k j (by omega)

theorem map_eraseIdx {α β : Type} (f : α → β) (l : List α) (k : Nat) :
    (l.eraseIdx k).map f = (l.map f).eraseIdx k := by
  induction l generalizing k with
  | nil => simp [List.eraseIdx]
  | cons a l ih =>
    cases k with
    | zero => simp
    | succ k => simpa using ih k

theorem not_mem_eraseIdx_self {α : Type} (l : List α) (j : Nat) (hj : j < l.length)
    (h : l.Nodup) : l[j] ∉ l.eraseIdx j := by
  rw [List.eraseIdx_eq_take_drop_succ]
  intro hmem
  rcases List.mem_append.mp hmem with hm | hm
  · obtain ⟨i, hi, hey⟩ := List.mem_iff_getElem.mp hm
    rw [List.getElem_take] at hey
    have hlt : i < j := by
      have := hi
      simp [List.length_take] at this
      omega
    exact absurd (h.getElem_inj_iff.mp hey) (by omega)
  · obtain ⟨i, hi, hey⟩ := List.mem_iff_getElem.mp hm
    rw [List.getElem_drop] at hey
    exact absurd (h.getElem_inj_iff.mp hey) (by omega)

theorem takeWhile_append_of_all {α : Type} (p : α → Bool) (a b : List α)
    (ha : ∀ c ∈ a, p c = true) (hb : ∀ c ∈ b, p c = false) :
    (a ++ b).takeWhile p = a := by
  induction a with
  | nil =>
    cases b with
    | nil => rfl
    | cons c cs => simp [List.takeWhile_cons, hb c (List.mem_cons_self c cs)]
  | cons c a ih =>
    rw [List.cons_append, List.takeWhile_cons, ha c (List.mem_cons_self c a)]
    simpa using ih fun x hx => ha x (List.mem_cons_of_mem c hx)

theorem dropWhile_append_of_all {α : Type} (p : α → Bool) (a b : List α)
    (ha : ∀ c ∈ a, p c = true) (hb : ∀ c ∈ b, p c = false) :
    (a ++ b).dropWhile p = b := by
  induction a with
  | nil =>
    cases b with
    | nil => rfl
    | cons c cs => simp [List.dropWhile_cons, hb c (List.mem_cons_self c cs)]
  | cons c a ih =>
    rw [List.cons_append, List.dropWhile_cons, ha c (List.mem_cons_self c a)]
    exact ih fun x hx => ha x (List.mem_cons_of_mem c hx)

theorem takeWhile_eq_self_of_all {α : Type} (p : α → Bool) (l : List α)
    (h : ∀ c ∈ l, p c = true) : l.takeWhile p = l := by
  induction l with
  | nil => rfl
  | cons c l ih =>
    rw [List.takeWhile_cons, h c (List.mem_cons_self c l)]
    simpa using ih fun x hx => h x (List.mem_cons_of_mem c hx)

/-! ## Column plumbing lemmas -/

theorem colIdx_eq_none_iff (t : Table) (name : String) :
    colIdx t name = none ↔ name ∉ colNames t := by
  rw [colIdx, List.findIdx?_eq_none_iff, colNames]
  constructor
  · intro h hmem
    obtain ⟨p, hp, hpn⟩ := List.mem_map.mp hmem
    have := h p hp
    rw [hpn] at this
    simp at this
  · intro h p hp
    by_cases he : p.1 = name
    · exact absurd (List.mem_map.mpr ⟨p, hp, he⟩) h
    · simpa using he

theorem colIdx_some_facts (t : Table) (name : String) (j : Nat)
    (h : colIdx t name = some j) :
    j < t.headers.length ∧ (t.headers.getD j ("", .obj)).1 = name := by
  rw [colIdx, List.findIdx?_eq_some_iff_getElem] at h
  obtain ⟨hj, hp, -⟩ := h
  refine ⟨hj, ?_⟩
  rw [List.getD_eq_getElem _ _ hj]
  exact beq_iff_eq.mp hp

theorem setColRowwise_of_not_mem (t : Table) (name : String) (ty : Dtype)
    (f : List Cell → Cell) (h : name ∉ colNames t) :
    setColRowwise t name ty f
      = ⟨t.headers ++ [(name, ty)], t.rows.map fun r => r ++ [f r]⟩ := by
  rw [setColRowwise, (colIdx_eq_none_iff t name).mpr h]

theorem setColRowwise_of_idx (t : Table) (name : String) (ty : Dtype)
    (f : List Cell → Cell) (j : Nat) (h : colIdx t name = some j) :
    setColRowwise t name ty f
      = ⟨t.headers.set j (name, ty), t.rows.map fun r => r.set j (f r)⟩ := by
  rw [setColRowwise, h]

theorem dropCol_of_idx (t : Table) (name : String) (j : Nat)
    (h : colIdx t name = some j) :
    dropCol t name = ⟨t.headers.eraseIdx j, t.rows.map fun r => r.eraseIdx j⟩ := by
  rw [dropCol, h]

theorem cellAt_append_left (r l : List Cell) (j : Nat) (h : j < r.length) :
    cellAt (r ++ l) j = cellAt r j :=
  List.getD_append _ _ _ _ h

theorem cellAt_set_self (r : List Cell) (j : Nat) (c : Cell) (h : j < r.length) :
    cellAt (r.set j c) j = c := by
  rw [cellAt, List.getD_eq_getElem _ _ (by simpa using h), List.getElem_set, if_pos rfl]

theorem cellAt_set_ne (r : List Cell) (j k : Nat) (c : Cell) (h : j ≠ k) :
    cellAt (r.set j c) k = cellAt r k := by
  rcases Nat.lt_or_ge k r.length with hlt | hge
  · rw [cellAt, cellAt, List.getD_eq_getElem _ _ (by simpa using hlt),
      List.getD_eq_getElem _ _ hlt, List.getElem_set, if_neg h]
  · rw [cellAt, cellAt, List.getD_eq_default _ _ (by simpa using hge),
      List.getD_eq_default _ _ hge]

/-! ## Lemmas about deduplication -/

theorem dropDupAux_sublist {α : Type} [DecidableEq α] (seen rows : List α) :
    (dropDupAux seen rows).Sublist rows := by
  induction rows generalizing seen with
  | nil => simp [dropDupAux]
  | cons r rs ih =>
    by_cases h : r ∈ seen
    · simpa [dropDupAux, h] using (ih seen).cons r
    · simpa [dropDupAux, h] using (ih (r :: seen)).cons₂ r

theorem mem_dropDupAux {α : Type} [DecidableEq α] (seen rows : List α) (x : α) :
    x ∈ dropDupAux seen rows ↔ x ∈ rows ∧ x ∉ seen := by
  induction rows generalizing seen with
  | nil => simp [dropDupAux]
  | cons r rs ih =>
    by_cases h : r ∈ seen
    · rw [dropDupAux, if_pos h, ih]
      constructor
      · rintro ⟨hx, hs⟩; exact ⟨.tail r hx, hs⟩
      · rintro ⟨hx, hs⟩
        cases List.mem_cons.mp hx with
        | inl he => exact absurd (he ▸ h) hs
        | inr hm => exact ⟨hm, hs⟩
    · rw [dropDupAux, if_neg h]
      by_cases hx : x = r
      · subst hx; simp [h]
      · rw [List.mem_cons, ih]
        simp [hx, List.mem_cons]

theorem nodup_dropDupAux {α : Type} [DecidableEq α] (seen rows : List α) :
    (dropDupAux seen rows).Nodup := by
  induction rows generalizing seen with
  | nil => simp [dropDupAux]
  | cons r rs ih =>
    by_cases h : r ∈ seen
    · simpa [dropDupAux, h] using ih seen
    · rw [dropDupAux, if_neg h]
      refine List.Nodup.cons (fun hr => ?_) (ih (r :: seen))
      exact ((mem_dropDupAux _ _ _).mp hr).2 (List.mem_cons_self r seen)

theorem dropDupAux_dup_drop {α : Type} [DecidableEq α] (seen pre post : List α) (r : α)
    (h : r ∈ seen ∨ r ∈ pre) :
    dropDupAux seen (pre ++ r :: post) = dropDupAux seen (pre ++ post) := by
  induction pre generalizing seen with
  | nil =>
    rcases h with h | h
    · simp [dropDupAux, h]
    · cases h
  | cons p pre ih =>
    by_cases hp : p ∈ seen
    · rw [List.cons_append, dropDupAux, if_pos hp, List.cons_append, dropDupAux, if_pos hp]
      refine ih seen ?_
      rcases h with h | h
      · exact .inl h
      · cases List.mem_cons.mp h with
        | inl he => exact .inl (he ▸ hp)
        | inr hm => exact .inr hm
    · rw [List.cons_append, dropDupAux, if_neg hp, List.cons_append, dropDupAux, if_neg hp]
      refine congrArg (p :: ·) (ih (p :: seen) ?_)
      rcases h with h | h
      · exact .inl (.tail p h)
      · cases List.mem_cons.mp h with
        | inl he => exact .inl (he ▸ List.mem_cons_self p seen)
        | inr hm => exact .inr hm

/-- C5: after `df.drop_duplicates()` no two rows are identical, the result
is a sublist of the input (so surviving rows keep their original relative
order), every input row is still represented, and a row equal to an
earlier row is dropped — only the first occurrence survives.  The table
step `dedupStep` applies exactly this to the rows and keeps the headers. -/
theorem dedup_first_occurrence_nodup :
    (∀ rows : List (List Cell),
      (drop_duplicates rows).Nodup ∧
      (drop_duplicates rows).Sublist rows ∧
      ∀ r, r ∈ drop_duplicates rows ↔ r ∈ rows) ∧
    (∀ (pre post : List (List Cell)) (r : List Cell), r ∈ pre →
      drop_duplicates (pre ++ r :: post) = drop_duplicates (pre ++ post)) ∧
    (∀ t : Table, (dedupStep t).headers = t.headers ∧
      (dedupStep t).rows = drop_duplicates t.rows) := by
  refine ⟨fun rows => ⟨nodup_dropDupAux [] rows, dropDupAux_sublist [] rows, fun r => ?_⟩,
    fun pre post r hr => dropDupAux_dup_drop [] pre post r (.inr hr),
    fun t => ⟨rfl, rfl⟩⟩
  rw [drop_duplicates, mem_dropDupAux]
  simp

/-- Witness for C5 at a concrete row list: the duplicate of the first row
is dropped and the result has no duplicate rows. -/
theorem dedup_first_occurrence_nodup_witness :
    drop_duplicates [[Cell.s "a"], [Cell.s "b"], [Cell.s "a"]]
      = drop_duplicates [[Cell.s "a"], [Cell.s "b"]] ∧
    (drop_duplicates [[Cell.s "a"], [Cell.s "b"], [Cell.s "a"]]).Nodup := by
  constructor
  · exact dedup_first_occurrence_nodup.2.1 [[Cell.s "a"], [Cell.s "b"]] [] [Cell.s "a"]
      (by decide)
  · exact (dedup_first_occurrence_nodup.1 [[Cell.s "a"], [Cell.s "b"], [Cell.s "a"]]).1

/-! ## C2: export error handling -/

/-- A concrete cleaned table used in counterexamples and witnesses. -/
def tinyTable : Table := ⟨[("title", .obj)], [[Cell.s "x"]]⟩

/-- C2 counterexample: with a table in the store and a failure raised while
writing the full spreadsheet, the sample file is *not* written — the single
`try`/`except` of `save_cleaned_data` (lines 83–124) catches the error
before the sample export runs, contradicting the claim that the sample
file is still written. -/
theorem save_full_error_skips_sample_cex :
    (save_cleaned_data [tinyTable] 0 true false).2.sampleFile = none ∧
    (save_cleaned_data [tinyTable] 0 true false).2.errorLogged = true := by
  decide

/-- C2 amended: an error raised while writing the full spreadsheet is
caught and logged and does not fail the process (no exception reaches the
caller), but neither file is written — in particular the sample export is
skipped, because one `except` block covers both exports. -/
theorem save_full_error_amended (s : List Table) (i : Nat) (sampleFails : Bool) :
    (save_cleaned_data s i true sampleFails).2.errorLogged = true ∧
    (save_cleaned_data s i true sampleFails).2.raised = false ∧
    (save_cleaned_data s i true sampleFails).2.fullFile = none ∧
    (save_cleaned_data s i true sampleFails).2.sampleFile = none := by
  refine ⟨rfl, rfl, rfl, rfl⟩

/-! ## C7: `clean_data` operates on a copy -/

/-- C7: `clean_data` allocates a copy (line 33) and cleans that, so every
table already in the store — in particular the caller's — is unchanged,
and the returned reference points at `cleanTable` of the input table. -/
theorem clean_data_leaves_caller_unchanged (s : List Table) (i : Nat) :
    (∀ k, k < s.length → (clean_data s i).1.getD k default = s.getD k default) ∧
    (clean_data s i).1.getD (clean_data s i).2 default = cleanTable (s.getD i default) := by
  constructor
  · intro k hk
    exact List.getD_append _ _ _ _ hk
  · rw [clean_data]
    simp

/-- Witness for C7 at a concrete one-table store. -/
theorem clean_data_leaves_caller_unchanged_witness :
    (clean_data [tinyTable] 0).1.getD 0 default = [tinyTable].getD 0 default :=
  (clean_data_leaves_caller_unchanged [tinyTable] 0).1 0 (by decide)

/-! ## C8: loader error kinds -/

/-- C8: `load_data` returns a `FileNotFoundError`-kind error exactly when
the path does not exist, a generic load error on any other read failure,
and the loaded table on success (lines 9–18). -/
theorem load_data_error_kinds (fs : String → Option (Except String Table)) (path : String) :
    ((∃ msg, load_data fs path = .error (.fileNotFound msg)) ↔ fs path = none) ∧
    (∀ e, fs path = some (.error e) →
      load_data fs path = .error (.loadFailed ("Error loading data: " ++ e))) ∧
    (∀ tb, fs path = some (.ok tb) → load_data fs path = .ok tb) := by
  refine ⟨⟨fun ⟨msg, hm⟩ => ?_, fun h => ⟨_, by rw [load_data, h]⟩⟩,
    fun e he => by rw [load_data, he], fun tb htb => by rw [load_data, htb]⟩
  rcases h : fs path with - | x
  · rfl
  · rcases x with e | tb <;> rw [load_data, h] at hm <;> exact absurd hm (by simp)

/-- Witness for C8 on a concrete two-path file system: an existing path
loads its table, a missing path yields the file-not-found error kind. -/
theorem load_data_error_kinds_witness :
    load_data (fun p => if p = "netflix_titles.csv" then some (.ok tinyTable) else none)
      "netflix_titles.csv" = .ok tinyTable ∧
    ∃ msg, load_data (fun p => if p = "netflix_titles.csv" then some (.ok tinyTable) else none)
      "missing.csv" = .error (.fileNotFound msg) := by
  constructor
  · exact (load_data_error_kinds _ "netflix_titles.csv").2.2 tinyTable (by simp)
  · exact (load_data_error_kinds _ "missing.csv").1.2 (by simp)

/-! ## C1: duration decomposition -/

/-- C1 counterexample: on input `"90 min"` the code yields
`duration_unit = " min"` (the regex `(\D+)` captures the leading space),
not `"min"` as the claim states; and on the digitless input `"unknown"`
the unit is the whole string `"unknown"`, not the claimed default
`"min"`. -/
theorem duration_unit_claim_cex :
    durationUnitCell (.s "90 min") = .s " min" ∧ Cell.s " min" ≠ Cell.s "min" ∧
    durationUnitCell (.s "unknown") = .s "unknown" ∧
    Cell.s "unknown" ≠ Cell.s "min" := by
  decide

/-- Characterization of step 4 on a table whose `duration` column sits at
index `jd` and whose derived column names are fresh: the two derived
columns are appended and the `duration` column is dropped. -/
theorem processDuration_eq (t : Table) (jd : Nat)
    (hjd : colIdx t "duration" = some jd)
    (hwf : rowsWF t = true)
    (hfv : "duration_value" ∉ colNames t)
    (hfu : "duration_unit" ∉ colNames t) :
    processDuration t
      = ⟨t.headers.eraseIdx jd ++ [("duration_value", .num), ("duration_unit", .obj)],
        t.rows.map fun r =>
          r.eraseIdx jd ++ [durationValueCell (cellAt r jd), durationUnitCell (cellAt r jd)]⟩ := by
  obtain ⟨hjd_lt, hjd_name⟩ := colIdx_some_facts t "duration" jd hjd
  have hrow_len : ∀ r ∈ t.rows, r.length = t.headers.length := by
    intro r hr
    have := List.all_eq_true.mp hwf r hr
    simpa using this
  have h1 := setColRowwise_of_not_mem t "duration_value" .num
    (fun r => durationValueCell (cellAt r jd)) hfv
  set t1 := setColRowwise t "duration_value" .num
    (fun r => durationValueCell (cellAt r jd)) with ht1
  have hfu1 : "duration_unit" ∉ colNames t1 := by
    rw [h1]
    intro hmem
    rcases List.mem_map.mp hmem with ⟨p, hp, hpn⟩
    rcases List.mem_append.mp hp with hp | hp
    · exact hfu (List.mem_map.mpr ⟨p, hp, hpn⟩)
    · simp at hp
      rw [hp] at hpn
      simp at hpn
  have h2 := setColRowwise_of_not_mem t1 "duration_unit" .obj
    (fun r => durationUnitCell (cellAt r jd)) hfu1
  set t2 := setColRowwise t1 "duration_unit" .obj
    (fun r => durationUnitCell (cellAt r jd)) with ht2
  have h2e : t2 = ⟨t.headers ++ [("duration_value", .num), ("duration_unit", .obj)],
      t.rows.map fun r =>
        r ++ [durationValueCell (cellAt r jd), durationUnitCell (cellAt r jd)]⟩ := by
    rw [h2, h1]
    refine congrArg₂ Table.mk (by simp) ?_
    simp only [List.map_map]
    refine List.map_congr_left fun r hr => ?_
    have hlen := hrow_len r hr
    simp only [Function.comp]
    rw [cellAt_append_left r _ jd (by omega)]
    simp
  have hidx2 : colIdx t2 "duration" = some jd := by
    rw [h2e, colIdx]
    show List.findIdx? _ (t.headers ++ _) = some jd
    rw [List.findIdx?_append]
    have : List.findIdx? (fun p => p.1 == "duration") t.headers = some jd := hjd
    rw [this]
    rfl
  have h3 := dropCol_of_idx t2 "duration" jd hidx2
  rw [processDuration, hjd]
  simp only [← ht1, ← ht2]
  rw [h3, h2e]
  refine congrArg₂ Table.mk ?_ ?_
  · exact List.eraseIdx_append_of_lt_length hjd_lt _
  · simp only [List.map_map]
    refine List.map_congr_left fun r hr => ?_
    have hlen := hrow_len r hr
    simp only [Function.comp]
    exact List.eraseIdx_append_of_lt_length (by omega) _

/-- After step 4 the `duration` column name is gone (given duplicate-free
column names). -/
theorem duration_dropped (t : Table) (jd : Nat)
    (hjd : colIdx t "duration" = some jd)
    (hwf : rowsWF t = true)
    (hfv : "duration_value" ∉ colNames t)
    (hfu : "duration_unit" ∉ colNames t)
    (hnd : (colNames t).Nodup) :
    "duration" ∉ colNames (processDuration t) := by
  obtain ⟨hjd_lt, hjd_name⟩ := colIdx_some_facts t "duration" jd hjd
  rw [processDuration_eq t jd hjd hwf hfv hfu]
  show "duration" ∉ List.map Prod.fst (t.headers.eraseIdx jd ++ _)
  rw [List.map_append]
  intro hmem
  rcases List.mem_append.mp hmem with hm | hm
  · rw [map_eraseIdx] at hm
    have hjlt : jd < (List.map Prod.fst t.headers).length := by simpa using hjd_lt
    have hjn : (List.map Prod.fst t.headers).getD jd "" = "duration" := by
      rw [List.getD_eq_getElem _ _ hjlt, List.getElem_map,
        ← List.getD_eq_getElem t.headers ("", Dtype.obj) hjd_lt]
      exact hjd_name
    rw [List.getD_eq_getElem _ _ hjlt] at hjn
    exact not_mem_eraseIdx_self (List.map Prod.fst t.headers) jd hjlt hnd (hjn ▸ hm)
  · simp at hm

/-- C1 amended: for a table with a `duration` column (fresh derived names,
well-formed rows, duplicate-free column names), the step appends a float
column `duration_value` holding the *first* run of digits (absent when
the string has no digit) and a text column `duration_unit` holding the
*first maximal run of non-digit characters* — for `"90 min"` that is
`" min"` with its leading space — with `"min"` only when the string
consists entirely of digits (or is empty or missing), and drops the
original `duration` column.  In particular `"90 min"` yields
`duration_value = 90.0` and `duration_unit = " min"`. -/
theorem duration_decomposition_amended :
    (∀ (t : Table) (jd : Nat),
      colIdx t "duration" = some jd →
      rowsWF t = true →
      "duration_value" ∉ colNames t →
      "duration_unit" ∉ colNames t →
      (colNames t).Nodup →
      processDuration t
        = ⟨t.headers.eraseIdx jd ++ [("duration_value", .num), ("duration_unit", .obj)],
          t.rows.map fun r =>
            r.eraseIdx jd ++ [durationValueCell (cellAt r jd), durationUnitCell (cellAt r jd)]⟩ ∧
      "duration" ∉ colNames (processDuration t)) ∧
    (∀ a b : List Char, a ≠ [] → (∀ c ∈ a, c.isDigit = true) → (∀ c ∈ b, c.isDigit = false) →
      durationValueCell (.s ⟨a ++ b⟩) = .n (readNat a : ℚ) ∧
      durationUnitCell (.s ⟨a ++ b⟩) = if b.isEmpty then Cell.s "min" else .s ⟨b⟩) ∧
    (∀ s : String, (∀ c ∈ s.data, c.isDigit = false) →
      durationValueCell (.s s) = .null ∧
      durationUnitCell (.s s) = if s.data.isEmpty then Cell.s "min" else .s s) ∧
    (durationValueCell (.s "90 min") = .n 90 ∧ durationUnitCell (.s "90 min") = .s " min") := by
  refine ⟨?_, ?_, ?_, by decide, by decide⟩
  · intro t jd hjd hwf hfv hfu hnd
    exact ⟨processDuration_eq t jd hjd hwf hfv hfu,
      duration_dropped t jd hjd hwf hfv hfu hnd⟩
  · intro a b ha hda hdb
    cases a with
    | nil => exact absurd rfl ha
    | cons c a =>
      have hc : c.isDigit = true := hda c (List.mem_cons_self c a)
      constructor
      · show durationValueCell (.s ⟨(c :: a) ++ b⟩) = _
        rw [durationValueCell]
        show (match extractDigits ((c :: a) ++ b) with
          | some ds => Cell.n (readNat ds : ℚ) | none => Cell.null) = _
        rw [extractDigits]
        rw [List.cons_append, List.dropWhile_cons]
        rw [hc]
        show (match (c :: (a ++ b)).takeWhile Char.isDigit with
          | ds => Cell.n (readNat ds : ℚ)) = _
        rw [← List.cons_append, takeWhile_append_of_all Char.isDigit (c :: a) b hda hdb]
      · show durationUnitCell (.s ⟨(c :: a) ++ b⟩) = _
        rw [durationUnitCell]
        show (match extractNonDigits ((c :: a) ++ b) with
          | some us => Cell.s ⟨us⟩ | none => Cell.s "min") = _
        rw [extractNonDigits, dropWhile_append_of_all Char.isDigit (c :: a) b hda hdb]
        cases b with
        | nil => rfl
        | cons u b =>
          have := takeWhile_eq_self_of_all (fun x => !x.isDigit) (u :: b)
            (fun x hx => by simp [hdb x hx])
          simp only [this]
          rfl
  · intro s hs
    obtain ⟨data⟩ := s
    constructor
    · cases data with
      | nil => rfl
      | cons c cs =>
        have hnil : (c :: cs).dropWhile (fun x => !x.isDigit) = [] := by
          rw [List.dropWhile_eq_nil_iff]
          intro x hx
          simp [hs x hx]
        show (match extractDigits (c :: cs) with
          | some ds => Cell.n (readNat ds : ℚ) | none => Cell.null) = Cell.null
        rw [extractDigits, hnil]
    · cases data with
      | nil => rfl
      | cons c cs =>
        have hc : c.isDigit = false := hs c (List.mem_cons_self c cs)
        have htw := takeWhile_eq_self_of_all (fun x => !x.isDigit) (c :: cs)
          (fun x hx => by simp [hs x hx])
        show (match extractNonDigits (c :: cs) with
          | some us => Cell.s ⟨us⟩ | none => Cell.s "min") = _
        rw [extractNonDigits, List.dropWhile_cons, hc]
        show Cell.s ⟨(c :: cs).takeWhile (fun x => !x.isDigit)⟩ = _
        rw [htw]
        rfl

/-- A concrete one-column duration table for the C1 witness. -/
def durTable : Table := ⟨[("duration", .obj)], [[Cell.s "90 min"]]⟩

/-- Witness for C1's amended theorem at `durTable`: the duration column is
dropped, the two derived columns appear, and `"90 min"` decomposes into
`90.0` and `" min"`. -/
theorem duration_decomposition_amended_witness :
    processDuration durTable
      = ⟨[("duration_value", .num), ("duration_unit", .obj)],
        [[durationValueCell (cellAt [Cell.s "90 min"] 0),
          durationUnitCell (cellAt [Cell.s "90 min"] 0)]]⟩ ∧
    durationValueCell (.s "90 min") = .n 90 := by
  constructor
  · exact (duration_decomposition_amended.1 durTable 0 (by decide) (by decide)
      (by decide) (by decide) (by decide)).1
  · exact duration_decomposition_amended.2.2.2.1

/-! ## Digit, strip and date lemmas -/

theorem digitChar_facts : ∀ k, k < 10 → (digitChar k).isDigit = true ∧
    digitVal (digitChar k) = k ∧ (digitChar k).isWhitespace = false := by
  decide

theorem digitVal_digitChar_mod (x : Nat) : digitVal (digitChar (x % 10)) = x % 10 :=
  (digitChar_facts _ (Nat.mod_lt x (by norm_num))).2.1

theorem isDigit_digitChar_mod (x : Nat) : (digitChar (x % 10)).isDigit = true :=
  (digitChar_facts _ (Nat.mod_lt x (by norm_num))).1

theorem digitVal_lt_ten (c : Char) (h : c.isDigit = true) : digitVal c < 10 := by
  simp [Char.isDigit] at h
  obtain ⟨h1, h2⟩ := h
  have h1n : (48 : UInt32).toNat ≤ c.val.toNat := h1
  have h2n : c.val.toNat ≤ (57 : UInt32).toNat := h2
  have e1 : (48 : UInt32).toNat = 48 := rfl
  have e2 : (57 : UInt32).toNat = 57 := rfl
  have e3 : c.toNat = c.val.toNat := rfl
  have e4 : Char.toNat '0' = 48 := rfl
  show c.toNat - Char.toNat '0' < 10
  omega

theorem dropWhile_eq_self_of_all_false {α : Type} (p : α → Bool) (l : List α)
    (h : ∀ c ∈ l, p c = false) : l.dropWhile p = l := by
  cases l with
  | nil => rfl
  | cons c cs => simp [List.dropWhile_cons, h c (List.mem_cons_self c cs)]

theorem stripChars_of_no_ws (cs : List Char) (h : ∀ c ∈ cs, c.isWhitespace = false) :
    stripChars cs = cs := by
  rw [stripChars, dropWhile_eq_self_of_all_false _ _ h,
    dropWhile_eq_self_of_all_false _ _ fun c hc => h c (List.mem_reverse.mp hc),
    List.reverse_reverse]

theorem formatDate_no_ws (dt : YMDate) :
    ∀ c ∈ (formatDate dt).data, c.isWhitespace = false := by
  intro c hc
  simp only [formatDate, pad4, pad2, List.cons_append, List.nil_append, List.mem_cons,
    List.not_mem_nil, or_false] at hc
  rcases hc with rfl | rfl | rfl | rfl | rfl | rfl | rfl | rfl | rfl | rfl <;>
    first
      | exact (digitChar_facts _ (Nat.mod_lt _ (by norm_num))).2.2
      | decide

theorem pyStrip_formatDate (dt : YMDate) : pyStrip (formatDate dt) = formatDate dt :=
  congrArg String.mk (stripChars_of_no_ws _ (formatDate_no_ws dt))

theorem parseChars_cons (y1 y2 y3 y4 s1 m1 m2 s2 d1 d2 : Char) :
    parseChars [y1, y2, y3, y4, s1, m1, m2, s2, d1, d2]
      = if s1 = '-' ∧ s2 = '-' ∧ ([y1, y2, y3, y4, m1, m2, d1, d2].all Char.isDigit) then
          (if validYMD (readNat [y1, y2, y3, y4]) (readNat [m1, m2]) (readNat [d1, d2]) then
            some ⟨readNat [y1, y2, y3, y4], readNat [m1, m2], readNat [d1, d2]⟩
          else none)
        else none := rfl

theorem parseDate_bounds (s : String) (dt : YMDate) (h : parseDate s = some dt) :
    dt.year < 10000 ∧ dt.month < 100 ∧ dt.day < 100 ∧
      validYMD dt.year dt.month dt.day = true := by
  rw [parseDate] at h
  unfold parseChars at h
  split at h
  case h_2 => exact absurd h (by simp)
  case h_1 y1 y2 y3 y4 s1 m1 m2 s2 d1 d2 heq =>
    by_cases hc : s1 = '-' ∧ s2 = '-' ∧
        ([y1, y2, y3, y4, m1, m2, d1, d2].all Char.isDigit) = true
    swap
    · rw [if_neg hc] at h
      exact absurd h (by simp)
    rw [if_pos hc] at h
    have h2 : (if validYMD (readNat [y1, y2, y3, y4]) (readNat [m1, m2])
          (readNat [d1, d2]) = true then
        some (⟨readNat [y1, y2, y3, y4], readNat [m1, m2], readNat [d1, d2]⟩ : YMDate)
      else none) = some dt := h
    split at h2
    · rename_i hv
      obtain ⟨-, -, hall⟩ := hc
      simp only [List.all_cons, List.all_nil, Bool.and_eq_true, Bool.and_true] at hall
      obtain ⟨hd1, hd2, hd3, hd4, hd5, hd6, hd7, hd8⟩ := hall
      have b1 := digitVal_lt_ten _ hd1
      have b2 := digitVal_lt_ten _ hd2
      have b3 := digitVal_lt_ten _ hd3
      have b4 := digitVal_lt_ten _ hd4
      have b5 := digitVal_lt_ten _ hd5
      have b6 := digitVal_lt_ten _ hd6
      have b7 := digitVal_lt_ten _ hd7
      have b8 := digitVal_lt_ten _ hd8
      obtain rfl : dt = ⟨readNat [y1, y2, y3, y4], readNat [m1, m2], readNat [d1, d2]⟩ :=
        (Option.some.inj h2).symm
      refine ⟨?_, ?_, ?_, hv⟩ <;>
        · simp only [readNat, List.foldl_cons, List.foldl_nil]
          omega
    · exact absurd h2 (by simp)

theorem parseDate_formatDate (s : String) (dt : YMDate) (h : parseDate s = some dt) :
    parseDate (formatDate dt) = some dt := by
  obtain ⟨hy, hm, hd, hv⟩ := parseDate_bounds s dt h
  have hall : ([digitChar (dt.year / 1000 % 10), digitChar (dt.year / 100 % 10),
      digitChar (dt.year / 10 % 10), digitChar (dt.year % 10),
      digitChar (dt.month / 10 % 10), digitChar (dt.month % 10),
      digitChar (dt.day / 10 % 10), digitChar (dt.day % 10)].all Char.isDigit) = true := by
    simp only [List.all_cons, List.all_nil, Bool.and_eq_true, Bool.and_true,
      isDigit_digitChar_mod]
  have hy' : readNat [digitChar (dt.year / 1000 % 10), digitChar (dt.year / 100 % 10),
      digitChar (dt.year / 10 % 10), digitChar (dt.year % 10)] = dt.year := by
    simp only [readNat, List.foldl_cons, List.foldl_nil, digitVal_digitChar_mod]
    omega
  have hm' : readNat [digitChar (dt.month / 10 % 10), digitChar (dt.month % 10)]
      = dt.month := by
    simp only [readNat, List.foldl_cons, List.foldl_nil, digitVal_digitChar_mod]
    omega
  have hd' : readNat [digitChar (dt.day / 10 % 10), digitChar (dt.day % 10)] = dt.day := by
    simp only [readNat, List.foldl_cons, List.foldl_nil, digitVal_digitChar_mod]
    omega
  show parseChars (pad4 dt.year ++ '-' :: (pad2 dt.month ++ '-' :: pad2 dt.day)) = some dt
  simp only [pad4, pad2, List.cons_append, List.nil_append]
  rw [parseChars_cons, if_pos ⟨rfl, rfl, hall⟩, hy', hm', hd', if_pos hv]

/-- Characterization of step 3 on a table whose `date_added` column sits at
index `jd` and whose derived column names are fresh: the column is
normalized in place, and the two derived columns are appended. -/
theorem processDates_eq (t : Table) (jd : Nat)
    (hjd : colIdx t "date_added" = some jd)
    (hwf : rowsWF t = true)
    (hy : "year_added" ∉ colNames t)
    (hm : "month_added" ∉ colNames t) :
    processDates t
      = ⟨t.headers.set jd ("date_added", .obj)
            ++ [("year_added", .num), ("month_added", .num)],
          t.rows.map fun r =>
            r.set jd (.s (dateNormalizeStr (cellToStr (cellAt r jd))))
              ++ [yearCellOf (.s (dateNormalizeStr (cellToStr (cellAt r jd)))),
                  monthCellOf (.s (dateNormalizeStr (cellToStr (cellAt r jd))))]⟩ := by
  obtain ⟨hjd_lt, -⟩ := colIdx_some_facts t "date_added" jd hjd
  have hrow_len : ∀ r ∈ t.rows, r.length = t.headers.length := by
    intro r hr
    simpa using List.all_eq_true.mp hwf r hr
  have h1 := setColRowwise_of_idx t "date_added" .obj
    (fun r => .s (dateNormalizeStr (cellToStr (cellAt r jd)))) jd hjd
  set t1 := setColRowwise t "date_added" .obj
    (fun r => .s (dateNormalizeStr (cellToStr (cellAt r jd)))) with ht1
  have hnames1 : colNames t1 = (colNames t).set jd "date_added" := by
    rw [h1]
    show List.map Prod.fst (t.headers.set jd _) = _
    rw [List.map_set]
    rfl
  have hy1 : "year_added" ∉ colNames t1 := by
    rw [hnames1]
    intro hmem
    rcases List.mem_or_eq_of_mem_set hmem with hmem | hmem
    · exact hy hmem
    · simp at hmem
  have h2 := setColRowwise_of_not_mem t1 "year_added" .num
    (fun r => yearCellOf (cellAt r jd)) hy1
  set t2 := setColRowwise t1 "year_added" .num (fun r => yearCellOf (cellAt r jd)) with ht2
  have hm1 : "month_added" ∉ colNames t1 := by
    rw [hnames1]
    intro hmem
    rcases List.mem_or_eq_of_mem_set hmem with hmem | hmem
    · exact hm hmem
    · simp at hmem
  have hm2 : "month_added" ∉ colNames t2 := by
    rw [h2]
    intro hmem
    rcases List.mem_map.mp hmem with ⟨p, hp, hpn⟩
    rcases List.mem_append.mp hp with hp | hp
    · exact hm1 (List.mem_map.mpr ⟨p, hp, hpn⟩)
    · simp at hp
      rw [hp] at hpn
      simp at hpn
  have h3 := setColRowwise_of_not_mem t2 "month_added" .num
    (fun r => monthCellOf (cellAt r jd)) hm2
  rw [processDates, hjd]
  simp only [← ht1, ← ht2]
  rw [h3, h2, h1]
  refine congrArg₂ Table.mk (by simp) ?_
  simp only [List.map_map]
  refine List.map_congr_left fun r hr => ?_
  have hlen := hrow_len r hr
  simp only [Function.comp]
  have hset_len : jd < (r.set jd (Cell.s (dateNormalizeStr (cellToStr (cellAt r jd))))).length := by
    rw [List.length_set]
    omega
  rw [cellAt_set_self r jd _ (by omega)]
  rw [cellAt_append_left _ _ jd hset_len, cellAt_set_self r jd _ (by omega)]
  simp

/-- C3: a string already in valid `YYYY-MM-DD` form round-trips through
date normalization unchanged; a string that does not parse as a date
(after stripping) yields the empty string, and the derived year and month
cells for that row are null.  The table step normalizes `date_added` in
place and appends the two derived columns computed by re-parsing the
normalized strings. -/
theorem date_normalization_roundtrip :
    (∀ (s : String) (dt : YMDate), parseDate s = some dt → formatDate dt = s →
      dateNormalizeStr s = s) ∧
    (∀ s : String, parseDate (pyStrip s) = none →
      dateNormalizeStr s = "" ∧
      yearCellOf (.s (dateNormalizeStr s)) = .null ∧
      monthCellOf (.s (dateNormalizeStr s)) = .null) ∧
    (∀ (t : Table) (jd : Nat), colIdx t "date_added" = some jd → rowsWF t = true →
      "year_added" ∉ colNames t → "month_added" ∉ colNames t →
      processDates t
        = ⟨t.headers.set jd ("date_added", .obj)
              ++ [("year_added", .num), ("month_added", .num)],
            t.rows.map fun r =>
              r.set jd (.s (dateNormalizeStr (cellToStr (cellAt r jd))))
                ++ [yearCellOf (.s (dateNormalizeStr (cellToStr (cellAt r jd)))),
                    monthCellOf (.s (dateNormalizeStr (cellToStr (cellAt r jd))))]⟩) := by
  refine ⟨?_, ?_, processDates_eq⟩
  · intro s dt hp hf
    have hps : pyStrip s = s := by
      rw [← hf]
      exact pyStrip_formatDate dt
    simp only [dateNormalizeStr, hps, hp]
    exact hf
  · intro s hp
    have h1 : dateNormalizeStr s = "" := by
      simp only [dateNormalizeStr, hp]
    refine ⟨h1, ?_, ?_⟩ <;>
      · rw [h1]
        decide

/-- A concrete one-column date table for the C3 witness. -/
def dateTable : Table := ⟨[("date_added", .obj)], [[Cell.s "2021-01-05"]]⟩

/-- Witness for C3: `"2021-01-05"` round-trips, the unparseable
`"not a date"` yields the empty string plus null year/month, and the
table-level equation holds at `dateTable`. -/
theorem date_normalization_roundtrip_witness :
    dateNormalizeStr "2021-01-05" = "2021-01-05" ∧
    (dateNormalizeStr "not a date" = "" ∧
      yearCellOf (.s (dateNormalizeStr "not a date")) = .null ∧
      monthCellOf (.s (dateNormalizeStr "not a date")) = .null) ∧
    processDates dateTable
      = ⟨([("date_added", Dtype.obj)].set 0 ("date_added", .obj))
            ++ [("year_added", .num), ("month_added", .num)],
          [[Cell.s "2021-01-05"]].map fun r =>
            r.set 0 (.s (dateNormalizeStr (cellToStr (cellAt r 0))))
              ++ [yearCellOf (.s (dateNormalizeStr (cellToStr (cellAt r 0)))),
                  monthCellOf (.s (dateNormalizeStr (cellToStr (cellAt r 0))))]⟩ :=
  ⟨date_normalization_roundtrip.1 "2021-01-05" ⟨2021, 1, 5⟩ (by decide) (by decide),
    date_normalization_roundtrip.2.1 "not a date" (by decide),
    date_normalization_roundtrip.2.2 dateTable 0 (by decide) (by decide) (by decide)
      (by decide)⟩

/-! ## C6: missing-value imputation -/

theorem cellAt_mapIdx (f : Nat → Cell → Cell) (r : List Cell) (j : Nat) (hj : j < r.length) :
    cellAt (r.mapIdx f) j = f j (cellAt r j) := by
  rw [cellAt, cellAt, List.getD_eq_getElem _ _ (by simpa using hj),
    List.getD_eq_getElem _ _ hj, List.getElem_mapIdx]

theorem getD_map_of_lt {α β : Type} (g : α → β) (l : List α) (i : Nat) (d : α) (d' : β)
    (hi : i < l.length) : (l.map g).getD i d' = g (l.getD i d) := by
  rw [List.getD_eq_getElem _ _ (by simpa using hi), List.getD_eq_getElem _ _ hi,
    List.getElem_map]

/-- C6: after missing-value imputation (step 1) followed by text
normalization (step 2), an originally missing cell of a text column holds
`"unknown"` (the fill literal `"Unknown"` after stripping and
lowercasing), and an originally missing cell of a numeric column holds
that column's median as computed at that point in the pipeline. -/
theorem imputation_fills_missing (t : Table) (j i : Nat) (m : ℚ)
    (hwf : rowsWF t = true) (hj : j < t.headers.length) (hi : i < t.rows.length) :
    (dtypeAt t j = .obj → cellAt (t.rows.getD i []) j = .null →
      cellAt ((textNormalize (fillMissing t)).rows.getD i []) j = .s "unknown") ∧
    (dtypeAt t j = .num → colMedian (numColOf t j) = some m →
      cellAt (t.rows.getD i []) j = .null →
      cellAt ((textNormalize (fillMissing t)).rows.getD i []) j = .n m) := by
  have hrmem : t.rows.getD i [] ∈ t.rows := by
    rw [List.getD_eq_getElem _ _ hi]
    exact List.getElem_mem hi
  have hrlen : (t.rows.getD i []).length = t.headers.length := by
    simpa using List.all_eq_true.mp hwf _ hrmem
  have e1 : (textNormalize (fillMissing t)).rows.getD i []
      = ((t.rows.getD i []).mapIdx fun k c =>
            fillCell (dtypeAt t k) (colMedian (numColOf t k)) c).mapIdx
          fun k c => if dtypeAt t k = .obj then textNormCell c else c := by
    show ((t.rows.map fun r => r.mapIdx fun k c =>
        fillCell (dtypeAt t k) (colMedian (numColOf t k)) c).map fun r =>
          r.mapIdx fun k c => if dtypeAt t k = .obj then textNormCell c else c).getD i [] = _
    rw [getD_map_of_lt _ _ i [] [] (by simpa using hi), getD_map_of_lt _ _ i [] [] hi]
  have hjr : j < (t.rows.getD i []).length := by omega
  constructor
  · intro hty hnull
    rw [e1, cellAt_mapIdx _ _ _ (by simpa using hjr), cellAt_mapIdx _ _ _ hjr, hnull, hty,
      fillCell, if_pos rfl]
    show textNormCell (.s "Unknown") = .s "unknown"
    decide
  · intro hty hmed hnull
    rw [e1, cellAt_mapIdx _ _ _ (by simpa using hjr), cellAt_mapIdx _ _ _ hjr, hnull, hty,
      hmed]
    simp [fillCell]

/-- A concrete table with one missing text cell and one missing numeric
cell for the C6 witness; the numeric column's non-null values are 1 and 3,
with median 2. -/
def medTable : Table :=
  ⟨[("a", .obj), ("b", .num)],
    [[Cell.null, Cell.n 1], [Cell.s "X", Cell.null], [Cell.s "Y", Cell.n 3]]⟩

/-- Witness for C6 at `medTable`: the missing text cell becomes
`"unknown"` and the missing numeric cell becomes the median 2. -/
theorem imputation_fills_missing_witness :
    cellAt ((textNormalize (fillMissing medTable)).rows.getD 0 []) 0 = .s "unknown" ∧
    cellAt ((textNormalize (fillMissing medTable)).rows.getD 1 []) 1 = .n 2 := by
  have hmed : colMedian (numColOf medTable 1) = some 2 := by
    rw [show numColOf medTable 1 = [some 1, none, some 3] from rfl]
    norm_num [colMedian, colQuantile, quantileSorted, sortQ, interpAt, natFloor,
      List.insertionSort, List.orderedInsert, List.filterMap]
  exact ⟨(imputation_fills_missing medTable 0 0 0 (by decide) (by decide) (by decide)).1
      rfl rfl,
    (imputation_fills_missing medTable 1 1 2 (by decide) (by decide) (by decide)).2
      rfl hmed rfl⟩

/-! ## C9: the exporter mutates the caller's table -/

theorem toDatetimeCell_not_string (c : Cell) (v : String) : toDatetimeCell c ≠ .s v := by
  cases c with
  | s w => cases hp : parseDate w <;> simp [toDatetimeCell, hp]
  | n w => simp [toDatetimeCell]
  | d w => simp [toDatetimeCell]
  | null => simp [toDatetimeCell]

/-- C9: `save_cleaned_data` reassigns the stored table's `date_added`
column in place (lines 84–85, before any write and with no copy): after
the call the caller's table holds parsed datetime cells there — never a
string, so the `YYYY-MM-DD` strings produced by cleaning are gone — with
`some` date for parseable strings and null for unparseable ones. -/
theorem save_cleaned_data_mutates_caller (s : List Table) (i : Nat)
    (fullFails sampleFails : Bool) (jd : Nat)
    (hi : i < s.length)
    (hjd : colIdx (s.getD i default) "date_added" = some jd)
    (hwf : rowsWF (s.getD i default) = true) :
    ((save_cleaned_data s i fullFails sampleFails).1.getD i default
      = ⟨(s.getD i default).headers.set jd ("date_added", .date),
          (s.getD i default).rows.map fun r => r.set jd (toDatetimeCell (cellAt r jd))⟩) ∧
    (∀ r ∈ ((save_cleaned_data s i fullFails sampleFails).1.getD i default).rows,
      ∀ v : String, cellAt r jd ≠ .s v) ∧
    (∀ (v : String) (dtv : YMDate), parseDate v = some dtv →
      toDatetimeCell (.s v) = .d dtv) ∧
    (∀ v : String, parseDate v = none → toDatetimeCell (.s v) = .null) := by
  obtain ⟨hjd_lt, -⟩ := colIdx_some_facts _ "date_added" jd hjd
  have hs1 : (save_cleaned_data s i fullFails sampleFails).1
      = s.set i (saveTransformTable (s.getD i default)) := by
    rw [save_cleaned_data]
    rcases fullFails <;> rcases sampleFails <;> simp
  have hget : (s.set i (saveTransformTable (s.getD i default))).getD i default
      = saveTransformTable (s.getD i default) := by
    rw [List.getD_eq_getElem _ _ (by simpa using hi), List.getElem_set, if_pos rfl]
  have htrans : saveTransformTable (s.getD i default)
      = ⟨(s.getD i default).headers.set jd ("date_added", .date),
          (s.getD i default).rows.map fun r => r.set jd (toDatetimeCell (cellAt r jd))⟩ := by
    simp only [saveTransformTable, hjd]
    exact setColRowwise_of_idx _ _ _ _ jd hjd
  refine ⟨by rw [hs1, hget, htrans], ?_, ?_, ?_⟩
  · intro r hr v
    rw [hs1, hget, htrans] at hr
    simp only [List.mem_map] at hr
    obtain ⟨r0, hr0, rfl⟩ := hr
    have hlen : r0.length = (s.getD i default).headers.length := by
      simpa using List.all_eq_true.mp hwf _ hr0
    rw [cellAt_set_self _ _ _ (by omega)]
    exact toDatetimeCell_not_string _ v
  · intro v dtv hp
    simp [toDatetimeCell, hp]
  · intro v hp
    simp [toDatetimeCell, hp]

/-- Witness for C9 at a one-table store holding `dateTable`: after the
call the caller's `date_added` cell is a datetime, not the string. -/
theorem save_cleaned_data_mutates_caller_witness :
    ((save_cleaned_data [dateTable] 0 false false).1.getD 0 default
      = ⟨[("date_added", Dtype.date)],
          [[Cell.d ⟨2021, 1, 5⟩]]⟩) ∧
    toDatetimeCell (.s "2021-01-05") = .d ⟨2021, 1, 5⟩ := by
  constructor
  · rw [(save_cleaned_data_mutates_caller [dateTable] 0 false false 0 (by decide)
      (by decide) (by decide)).1]
    decide
  · exact (save_cleaned_data_mutates_caller [dateTable] 0 false false 0 (by decide)
      (by decide) (by decide)).2.2.1 "2021-01-05" ⟨2021, 1, 5⟩ (by decide)

/-! ## C4: quantiles and outlier clipping -/

theorem natFloor_le (q : ℚ) (h : 0 ≤ q) : (natFloor q : ℚ) ≤ q := by
  have hnum : (q.num.toNat : ℤ) = q.num := Int.toNat_of_nonneg (Rat.num_nonneg.mpr h)
  have hden : (0 : ℚ) < (q.den : ℚ) := by exact_mod_cast q.den_pos
  have hcast : ((q.num.toNat : ℕ) : ℚ) = ((q.num : ℤ) : ℚ) := by exact_mod_cast hnum
  have hq : q = (q.num.toNat : ℚ) / (q.den : ℚ) := by
    rw [hcast, Rat.num_div_den]
  rw [show ((natFloor q : ℚ)) = ((q.num.toNat / q.den : Nat) : ℚ) from rfl]
  conv_rhs => rw [hq]
  rw [le_div_iff₀ hden]
  exact_mod_cast Nat.div_mul_le_self q.num.toNat q.den

theorem lt_natFloor_add_one (q : ℚ) (h : 0 ≤ q) : q < (natFloor q : ℚ) + 1 := by
  have hnum : (q.num.toNat : ℤ) = q.num := Int.toNat_of_nonneg (Rat.num_nonneg.mpr h)
  have hdpos : 0 < q.den := q.den_pos
  have hden : (0 : ℚ) < (q.den : ℚ) := by exact_mod_cast hdpos
  have hcast : ((q.num.toNat : ℕ) : ℚ) = ((q.num : ℤ) : ℚ) := by exact_mod_cast hnum
  have hq : q = (q.num.toNat : ℚ) / (q.den : ℚ) := by
    rw [hcast, Rat.num_div_den]
  have hlt : q.num.toNat < (q.num.toNat / q.den + 1) * q.den := by
    have h1 := Nat.div_add_mod q.num.toNat q.den
    have h2 := Nat.mod_lt q.num.toNat hdpos
    nlinarith
  rw [show ((natFloor q : ℚ)) = ((q.num.toNat / q.den : Nat) : ℚ) from rfl]
  conv_lhs => rw [hq]
  rw [div_lt_iff₀ hden]
  exact_mod_cast hlt

theorem sortQ_sorted (xs : List ℚ) : List.Sorted (· ≤ ·) (sortQ xs) :=
  List.sorted_insertionSort _ xs

theorem getD_sorted_mono (xs : List ℚ) (hs : List.Sorted (· ≤ ·) xs) (i j : Nat)
    (hij : i ≤ j) (hj : j < xs.length) : xs.getD i 0 ≤ xs.getD j 0 := by
  rcases Nat.eq_or_lt_of_le hij with rfl | hlt
  · exact le_refl _
  · rw [List.getD_eq_getElem _ _ (by omega), List.getD_eq_getElem _ _ hj]
    exact List.pairwise_iff_get.mp hs ⟨i, by omega⟩ ⟨j, hj⟩ hlt

/-- Linear interpolation through sorted order statistics is monotone in the
position. -/
theorem interpAt_mono (xs : List ℚ) (hs : List.Sorted (· ≤ ·) xs)
    (a b : ℚ) (ha : 0 ≤ a) (hab : a ≤ b) (hb : b ≤ (xs.length : ℚ) - 1) :
    interpAt xs a ≤ interpAt xs b := by
  have hb0 : 0 ≤ b := le_trans ha hab
  have hfa0 := natFloor_le a ha
  have hfa1 := lt_natFloor_add_one a ha
  have hfb0 := natFloor_le b hb0
  have hfb1 := lt_natFloor_add_one b hb0
  have hn1 : (1 : ℚ) ≤ (xs.length : ℚ) := by linarith
  have hib_lt : natFloor b < xs.length := by
    have hc : (natFloor b : ℚ) < (xs.length : ℚ) := by linarith
    exact_mod_cast hc
  have hia_le : natFloor a ≤ natFloor b := by
    have hc : (natFloor a : ℚ) < (natFloor b : ℚ) + 1 := by linarith
    have hc2 : natFloor a < natFloor b + 1 := by exact_mod_cast hc
    omega
  have hx0ab : xs.getD (natFloor a) 0 ≤ xs.getD (natFloor b) 0 :=
    getD_sorted_mono xs hs _ _ hia_le hib_lt
  have hx01a : xs.getD (natFloor a) 0
      ≤ xs.getD (natFloor a + 1) (xs.getD (natFloor a) 0) := by
    rcases Nat.lt_or_ge (natFloor a + 1) xs.length with hlt | hge
    · have he : xs.getD (natFloor a + 1) (xs.getD (natFloor a) 0)
          = xs.getD (natFloor a + 1) 0 := by
        rw [List.getD_eq_getElem _ _ hlt, List.getD_eq_getElem _ _ hlt]
      rw [he]
      exact getD_sorted_mono xs hs _ _ (by omega) hlt
    · rw [List.getD_eq_default _ _ hge]
  have hx01b : xs.getD (natFloor b) 0
      ≤ xs.getD (natFloor b + 1) (xs.getD (natFloor b) 0) := by
    rcases Nat.lt_or_ge (natFloor b + 1) xs.length with hlt | hge
    · have he : xs.getD (natFloor b + 1) (xs.getD (natFloor b) 0)
          = xs.getD (natFloor b + 1) 0 := by
        rw [List.getD_eq_getElem _ _ hlt, List.getD_eq_getElem _ _ hlt]
      rw [he]
      exact getD_sorted_mono xs hs _ _ (by omega) hlt
    · rw [List.getD_eq_default _ _ hge]
  simp only [interpAt]
  rcases Nat.eq_or_lt_of_le hia_le with heq | hlt
  · rw [heq]
    rw [heq] at hfa0 hfa1
    nlinarith
  · have hia1_lt : natFloor a + 1 < xs.length := by omega
    have he : xs.getD (natFloor a + 1) (xs.getD (natFloor a) 0)
        = xs.getD (natFloor a + 1) 0 := by
      rw [List.getD_eq_getElem _ _ hia1_lt, List.getD_eq_getElem _ _ hia1_lt]
    have h1 : xs.getD (natFloor a) 0
          + (a - (natFloor a : ℚ)) * (xs.getD (natFloor a + 1) (xs.getD (natFloor a) 0)
            - xs.getD (natFloor a) 0)
        ≤ xs.getD (natFloor a + 1) 0 := by
      rw [← he]
      nlinarith
    have h2 : xs.getD (natFloor a + 1) 0 ≤ xs.getD (natFloor b) 0 :=
      getD_sorted_mono xs hs _ _ (by omega) hib_lt
    have h3 : xs.getD (natFloor b) 0
        ≤ xs.getD (natFloor b) 0
          + (b - (natFloor b : ℚ)) * (xs.getD (natFloor b + 1) (xs.getD (natFloor b) 0)
            - xs.getD (natFloor b) 0) := by
      nlinarith
    linarith

/-- The linear-interpolation quantile is monotone in `p` over `[0, 1]`. -/
theorem colQuantile_mono (cells : List (Option ℚ)) (p1 p2 q1 q2 : ℚ)
    (hp1 : 0 ≤ p1) (hp12 : p1 ≤ p2) (hp2 : p2 ≤ 1)
    (h1 : colQuantile cells p1 = some q1) (h2 : colQuantile cells p2 = some q2) :
    q1 ≤ q2 := by
  rw [colQuantile, quantileSorted] at h1 h2
  split_ifs at h1 h2 with hemp
  case neg =>
    have hlen : 1 ≤ (sortQ (cells.filterMap id)).length := by
      rcases hq : sortQ (cells.filterMap id) with - | ⟨x, l⟩
      · rw [hq] at hemp
        simp at hemp
      · simp [hq]
    have hlen1 : (1 : ℚ) ≤ ((sortQ (cells.filterMap id)).length : ℚ) := by
      exact_mod_cast hlen
    have e1 : q1 = interpAt (sortQ (cells.filterMap id))
        (p1 * (((sortQ (cells.filterMap id)).length : ℚ) - 1)) := (Option.some.inj h1).symm
    have e2 : q2 = interpAt (sortQ (cells.filterMap id))
        (p2 * (((sortQ (cells.filterMap id)).length : ℚ) - 1)) := (Option.some.inj h2).symm
    rw [e1, e2]
    apply interpAt_mono _ (sortQ_sorted _)
    · exact mul_nonneg hp1 (by linarith)
    · exact mul_le_mul_of_nonneg_right hp12 (by linarith)
    · calc p2 * (((sortQ (cells.filterMap id)).length : ℚ) - 1)
          ≤ 1 * (((sortQ (cells.filterMap id)).length : ℚ) - 1) :=
            mul_le_mul_of_nonneg_right hp2 (by linarith)
        _ = ((sortQ (cells.filterMap id)).length : ℚ) - 1 := one_mul _

/-- C4: for every numeric column, with Q1/Q3 the linear-interpolation
quartiles of the column's non-null values and IQR = Q3 − Q1, every number
cell after `handle_outliers` lies within `[Q1 − 1.5·IQR, Q3 + 1.5·IQR]`;
values already in the range are unchanged, and values outside are set to
the nearest bound. -/
theorem outlier_clipping_bounds (t : Table) (j : Nat) (q1 q3 : ℚ)
    (hdt : dtypeAt t j = .num)
    (h1 : colQuantile (numColOf t j) (1/4) = some q1)
    (h3 : colQuantile (numColOf t j) (3/4) = some q3) :
    (handle_outliers t).headers = t.headers ∧
    ∀ i, i < t.rows.length → ∀ v : ℚ, cellAt (t.rows.getD i []) j = .n v →
      ∃ w : ℚ, cellAt ((handle_outliers t).rows.getD i []) j = .n w ∧
        q1 - 3/2 * (q3 - q1) ≤ w ∧ w ≤ q3 + 3/2 * (q3 - q1) ∧
        (q1 - 3/2 * (q3 - q1) ≤ v ∧ v ≤ q3 + 3/2 * (q3 - q1) → w = v) ∧
        (v < q1 - 3/2 * (q3 - q1) → w = q1 - 3/2 * (q3 - q1)) ∧
        (q3 + 3/2 * (q3 - q1) < v → w = q3 + 3/2 * (q3 - q1)) := by
  have hq13 : q1 ≤ q3 := colQuantile_mono (numColOf t j) (1/4) (3/4) q1 q3
    (by norm_num) (by norm_num) (by norm_num) h1 h3
  have hlohi : q1 - 3/2 * (q3 - q1) ≤ q3 + 3/2 * (q3 - q1) := by linarith
  refine ⟨rfl, ?_⟩
  intro i hi v hv
  have hjr : j < (t.rows.getD i []).length := by
    by_contra hge
    rw [cellAt, List.getD_eq_default _ _ (by omega)] at hv
    cases hv
  have hbounds : outlierBounds t j = some (q1 - 3/2 * (q3 - q1), q3 + 3/2 * (q3 - q1)) := by
    rw [outlierBounds, h1, h3]
  have e1 : cellAt ((handle_outliers t).rows.getD i []) j
      = Cell.n (clipQ (q1 - 3/2 * (q3 - q1)) (q3 + 3/2 * (q3 - q1)) v) := by
    show cellAt ((t.rows.map fun r => r.mapIdx fun k c =>
        if dtypeAt t k = .num then clipCell (outlierBounds t k) c else c).getD i []) j = _
    rw [getD_map_of_lt _ _ i [] [] hi, cellAt_mapIdx _ _ _ hjr, hv, hdt, if_pos rfl,
      hbounds]
    rfl
  refine ⟨clipQ (q1 - 3/2 * (q3 - q1)) (q3 + 3/2 * (q3 - q1)) v, e1, ?_, ?_, ?_, ?_, ?_⟩
  · exact le_min (le_max_right _ _) hlohi
  · exact min_le_right _ _
  · rintro ⟨hl, hr⟩
    rw [clipQ, max_eq_left hl, min_eq_left hr]
  · intro hl
    rw [clipQ, max_eq_right (le_of_lt hl), min_eq_left hlohi]
  · intro hr
    rw [clipQ, max_eq_left (by linarith), min_eq_right (le_of_lt hr)]

/-- A concrete numeric table with an outlier for the C4 witness. -/
def qTable : Table :=
  ⟨[("x", .num)], [[Cell.n 1], [Cell.n 2], [Cell.n 3], [Cell.n 100]]⟩

/-- Witness for C4 at `qTable` (Q1 = 7/4, Q3 = 109/4): the outlier 100 is
clipped into the IQR range. -/
theorem outlier_clipping_bounds_witness :
    ∃ w : ℚ, cellAt ((handle_outliers qTable).rows.getD 3 []) 0 = .n w ∧
      7/4 - 3/2 * (109/4 - 7/4) ≤ w ∧ w ≤ 109/4 + 3/2 * (109/4 - 7/4) := by
  have h1 : colQuantile (numColOf qTable 0) (1/4) = some (7/4) := by
    rw [show numColOf qTable 0 = [some 1, some 2, some 3, some 100] from rfl]
    norm_num [colQuantile, quantileSorted, sortQ, interpAt, natFloor,
      List.insertionSort, List.orderedInsert, List.filterMap]
    simp
    norm_num
  have h3 : colQuantile (numColOf qTable 0) (3/4) = some (109/4) := by
    rw [show numColOf qTable 0 = [some 1, some 2, some 3, some 100] from rfl]
    norm_num [colQuantile, quantileSorted, sortQ, interpAt, natFloor,
      List.insertionSort, List.orderedInsert, List.filterMap]
    simp
    norm_num
  obtain ⟨w, hw, hlo, hhi, -, -, -⟩ := (outlier_clipping_bounds qTable 0 (7/4) (109/4)
    rfl h1 h3).2 3 (by decide) 100 (by decide)
  exact ⟨w, hw, hlo, hhi⟩

/-! ## C10: null freedom after the pipeline -/

theorem getD_set_self {α : Type} (l : List α) (i : Nat) (a d : α) (h : i < l.length) :
    (l.set i a).getD i d = a := by
  rw [List.getD_eq_getElem _ _ (by simpa using h), List.getElem_set, if_pos rfl]

theorem getD_set_ne {α : Type} (l : List α) (i k : Nat) (a d : α) (h : i ≠ k) :
    (l.set i a).getD k d = l.getD k d := by
  rcases Nat.lt_or_ge k l.length with hlt | hge
  · rw [List.getD_eq_getElem _ _ (by simpa using hlt), List.getD_eq_getElem _ _ hlt,
      List.getElem_set, if_neg h]
  · rw [List.getD_eq_default _ _ (by simpa using hge), List.getD_eq_default _ _ hge]

theorem clipCell_ne_null (b : Option (ℚ × ℚ)) (c : Cell) (h : c ≠ .null) :
    clipCell b c ≠ .null := by
  cases c with
  | n v =>
    cases b with
    | some p =>
      rcases p with ⟨lo, hi⟩
      simp [clipCell]
    | none => simp [clipCell]
  | s v => simp [clipCell]
  | d v => simp [clipCell]
  | null => exact absurd rfl h

/-- One cell through step 1 then step 2: a well-typed cell of a text
column, or of a numeric column whose median exists, is not null
afterwards. -/
theorem stepTwoCell_ne_null (ty : Dtype) (med : Option ℚ) (c : Cell)
    (hcell : cellOfTy ty c = true)
    (hty : ty = .obj ∨ (ty = .num ∧ med ≠ none)) :
    (if ty = .obj then textNormCell (fillCell ty med c) else fillCell ty med c) ≠ .null := by
  rcases hty with rfl | ⟨rfl, hmed⟩
  · rw [if_pos rfl]
    cases c with
    | s v => simp [fillCell, textNormCell]
    | n v => simp [cellOfTy] at hcell
    | d v => simp [cellOfTy] at hcell
    | null => simp [fillCell, textNormCell]
  · rw [if_neg (by simp)]
    cases c with
    | s v => simp [cellOfTy] at hcell
    | n v => simp [fillCell]
    | d v => simp [cellOfTy] at hcell
    | null =>
      rcases hms : med with - | m
      · exact absurd hms hmed
      · simp [fillCell, hms]

/-- After the full pipeline, a text column — or a numeric column whose
median exists — that was present at imputation time and is not named
`duration` still exists (possibly at a shifted position, same name) and
contains no null cell. -/
theorem cleanTable_preserves_nonnull (t : Table) (j : Nat)
    (hwf : rowsWF t = true)
    (hwt : wellTyped t = true)
    (hy : "year_added" ∉ colNames t)
    (hm : "month_added" ∉ colNames t)
    (hfv : "duration_value" ∉ colNames t)
    (hfu : "duration_unit" ∉ colNames t)
    (hj : j < t.headers.length)
    (hnm : (t.headers.getD j ("", .obj)).1 ≠ "duration")
    (hty : dtypeAt t j = .obj ∨
      (dtypeAt t j = .num ∧ colMedian (numColOf t j) ≠ none)) :
    ∃ j2, j2 < (cleanTable t).headers.length ∧
      ((cleanTable t).headers.getD j2 ("", .obj)).1 = (t.headers.getD j ("", .obj)).1 ∧
      ∀ r ∈ (cleanTable t).rows, cellAt r j2 ≠ .null := by
  have hrow_len : ∀ r ∈ t.rows, r.length = t.headers.length := fun r hr => by
    simpa using List.all_eq_true.mp hwf r hr
  simp only [cleanTable]
  set tA := textNormalize (fillMissing t) with htA
  -- Stage A facts
  have hA_head : tA.headers = t.headers := rfl
  have hA_rows : tA.rows
      = (t.rows.map fun r => r.mapIdx fun k c =>
          fillCell (dtypeAt t k) (colMedian (numColOf t k)) c).map
        fun r => r.mapIdx fun k c => if dtypeAt t k = .obj then textNormCell c else c := rfl
  have hA_len : ∀ r ∈ tA.rows, r.length = t.headers.length := by
    intro r hr
    rw [hA_rows] at hr
    obtain ⟨r1, hr1, rfl⟩ := List.mem_map.mp hr
    obtain ⟨r0, hr0, rfl⟩ := List.mem_map.mp hr1
    simp [hrow_len r0 hr0]
  have hA_wf : rowsWF tA = true := by
    rw [rowsWF, List.all_eq_true]
    intro r hr
    simpa [hA_head] using hA_len r hr
  have hA_nonnull : ∀ r ∈ tA.rows, cellAt r j ≠ .null := by
    intro r hr
    rw [hA_rows] at hr
    obtain ⟨r1, hr1, rfl⟩ := List.mem_map.mp hr
    obtain ⟨r0, hr0, rfl⟩ := List.mem_map.mp hr1
    have hlen0 : j < r0.length := by
      rw [hrow_len r0 hr0]
      exact hj
    have hcell := List.all_eq_true.mp (List.all_eq_true.mp hwt r0 hr0) j
      (List.mem_range.mpr hj)
    rw [cellAt_mapIdx _ _ _ (by simpa using hlen0), cellAt_mapIdx _ _ _ hlen0]
    exact stepTwoCell_ne_null _ _ _ hcell hty
  have hA_names : colNames tA = colNames t := rfl
  -- Stage B: dates
  set tB := processDates tA with htB
  have hB : ∃ j2, j2 < tB.headers.length ∧
      ((tB.headers.getD j2 ("", .obj)).1 = (t.headers.getD j ("", .obj)).1) ∧
      (∀ r ∈ tB.rows, cellAt r j2 ≠ .null) ∧
      (∀ r ∈ tB.rows, r.length = tB.headers.length) ∧
      "duration_value" ∉ colNames tB ∧ "duration_unit" ∉ colNames tB := by
    rcases hdate : colIdx tA "date_added" with - | jd
    · have hBeq : tB = tA := by
        rw [htB, processDates, hdate]
      refine ⟨j, ?_, ?_, ?_, ?_, ?_, ?_⟩ <;> rw [hBeq]
      · rw [hA_head]
        exact hj
      · rfl
      · exact hA_nonnull
      · intro r hr
        rw [hA_head]
        exact hA_len r hr
      · rw [hA_names]
        exact hfv
      · rw [hA_names]
        exact hfu
    · obtain ⟨hjd_lt, hjd_name⟩ := colIdx_some_facts tA "date_added" jd hdate
      rw [hA_head] at hjd_lt
      have hyA : "year_added" ∉ colNames tA := by
        rw [hA_names]
        exact hy
      have hmA : "month_added" ∉ colNames tA := by
        rw [hA_names]
        exact hm
      have hBeq : tB = ⟨t.headers.set jd ("date_added", .obj)
            ++ [("year_added", .num), ("month_added", .num)],
          tA.rows.map fun r =>
            r.set jd (.s (dateNormalizeStr (cellToStr (cellAt r jd))))
              ++ [yearCellOf (.s (dateNormalizeStr (cellToStr (cellAt r jd)))),
                  monthCellOf (.s (dateNormalizeStr (cellToStr (cellAt r jd))))]⟩ := by
        rw [htB, processDates_eq tA jd hdate hA_wf hyA hmA, hA_head]
      have hset_len : (t.headers.set jd ("date_added", .obj)).length = t.headers.length :=
        List.length_set _ _ _
      refine ⟨j, ?_, ?_, ?_, ?_, ?_, ?_⟩ <;> rw [hBeq]
      · simp only [List.length_append, hset_len]
        simp
        omega
      · show ((t.headers.set jd ("date_added", .obj)
            ++ [("year_added", Dtype.num), ("month_added", Dtype.num)]).getD j ("", .obj)).1 = _
        rw [List.getD_append _ _ _ _ (by omega)]
        by_cases hjj : j = jd
        · subst hjj
          rw [getD_set_self _ _ _ _ hj]
          rw [hA_head] at hjd_name
          exact hjd_name.symm
        · rw [getD_set_ne _ _ _ _ _ fun he => hjj he.symm]
      · intro r hr
        obtain ⟨r0, hr0, rfl⟩ := List.mem_map.mp hr
        have hl0 : r0.length = t.headers.length := hA_len r0 hr0
        have hjl : j < (r0.set jd (Cell.s (dateNormalizeStr (cellToStr (cellAt r0 jd))))).length := by
          rw [List.length_set]
          omega
        rw [cellAt_append_left _ _ _ hjl]
        by_cases hjj : j = jd
        · subst hjj
          rw [cellAt, getD_set_self _ _ _ _ (by omega)]
          simp
        · rw [cellAt, getD_set_ne _ _ _ _ _ fun he => hjj he.symm]
          exact hA_nonnull r0 hr0
      · intro r hr
        obtain ⟨r0, hr0, rfl⟩ := List.mem_map.mp hr
        have hl0 : r0.length = t.headers.length := hA_len r0 hr0
        simp [List.length_set, hl0, hset_len]
      · intro hmem
        rcases List.mem_map.mp hmem with ⟨p, hp, hpn⟩
        rcases List.mem_append.mp hp with hp | hp
        · have h0 : "duration_value" ∈ (List.map Prod.fst t.headers).set jd "date_added" := by
            have h1 := List.mem_map.mpr ⟨p, hp, hpn⟩
            rw [List.map_set] at h1
            exact h1
          rcases List.mem_or_eq_of_mem_set h0 with hin | he
          · exact hfv hin
          · simp at he
        · simp at hp
          rcases hp with hp | hp <;> rw [hp] at hpn <;> simp at hpn
      · intro hmem
        rcases List.mem_map.mp hmem with ⟨p, hp, hpn⟩
        rcases List.mem_append.mp hp with hp | hp
        · have h0 : "duration_unit" ∈ (List.map Prod.fst t.headers).set jd "date_added" := by
            have h1 := List.mem_map.mpr ⟨p, hp, hpn⟩
            rw [List.map_set] at h1
            exact h1
          rcases List.mem_or_eq_of_mem_set h0 with hin | he
          · exact hfu hin
          · simp at he
        · simp at hp
          rcases hp with hp | hp <;> rw [hp] at hpn <;> simp at hpn
  obtain ⟨j2, hj2, hname2, hnn2, hlen2, hfv2, hfu2⟩ := hB
  have hB_wf : rowsWF tB = true := by
    rw [rowsWF, List.all_eq_true]
    intro r hr
    simpa using hlen2 r hr
  -- Stage C: duration
  set tC := processDuration tB with htC
  have hC : ∃ j3, j3 < tC.headers.length ∧
      ((tC.headers.getD j3 ("", .obj)).1 = (t.headers.getD j ("", .obj)).1) ∧
      (∀ r ∈ tC.rows, cellAt r j3 ≠ .null) ∧
      (∀ r ∈ tC.rows, r.length = tC.headers.length) := by
    rcases hdur : colIdx tB "duration" with - | jdur
    · have hCeq : tC = tB := by
        rw [htC, processDuration, hdur]
      exact ⟨j2, by rw [hCeq]; exact hj2, by rw [hCeq]; exact hname2,
        by rw [hCeq]; exact hnn2, by rw [hCeq]; exact hlen2⟩
    · obtain ⟨hjdur_lt, hjdur_name⟩ := colIdx_some_facts tB "duration" jdur hdur
      have hne : j2 ≠ jdur := by
        intro he
        rw [← he] at hjdur_name
        rw [hname2] at hjdur_name
        exact hnm hjdur_name
      have hCeq : tC = ⟨tB.headers.eraseIdx jdur
            ++ [("duration_value", .num), ("duration_unit", .obj)],
          tB.rows.map fun r =>
            r.eraseIdx jdur
              ++ [durationValueCell (cellAt r jdur), durationUnitCell (cellAt r jdur)]⟩ := by
        rw [htC, processDuration_eq tB jdur hdur hB_wf hfv2 hfu2]
      have herase_len : (tB.headers.eraseIdx jdur).length = tB.headers.length - 1 := by
        rw [List.length_eraseIdx, if_pos hjdur_lt]
      refine ⟨if j2 < jdur then j2 else j2 - 1, ?_, ?_, ?_, ?_⟩ <;> rw [hCeq]
      · rw [List.length_append, herase_len]
        by_cases hlt : j2 < jdur
        · rw [if_pos hlt]
          simp only [List.length_cons, List.length_nil]
          omega
        · rw [if_neg hlt]
          simp only [List.length_cons, List.length_nil]
          omega
      · show ((tB.headers.eraseIdx jdur ++ _).getD _ ("", .obj)).1 = _
        rw [List.getD_append _ _ _ _ (by
          rw [herase_len]
          by_cases hlt : j2 < jdur
          · rw [if_pos hlt]
            omega
          · rw [if_neg hlt]
            omega)]
        by_cases hlt : j2 < jdur
        · rw [if_pos hlt, getD_eraseIdx_of_lt _ _ _ _ hlt]
          exact hname2
        · rw [if_neg hlt, getD_eraseIdx_of_ge _ _ _ _ (by omega),
            show j2 - 1 + 1 = j2 by omega]
          exact hname2
      · intro r hr
        obtain ⟨r0, hr0, rfl⟩ := List.mem_map.mp hr
        have hl0 : r0.length = tB.headers.length := hlen2 r0 hr0
        rw [cellAt, List.getD_append _ _ _ _ (by
          rw [List.length_eraseIdx, if_pos (show jdur < r0.length by omega)]
          by_cases hlt : j2 < jdur
          · rw [if_pos hlt]
            omega
          · rw [if_neg hlt]
            omega)]
        by_cases hlt : j2 < jdur
        · rw [if_pos hlt, getD_eraseIdx_of_lt _ _ _ _ hlt]
          exact hnn2 r0 hr0
        · rw [if_neg hlt, getD_eraseIdx_of_ge _ _ _ _ (by omega),
            show j2 - 1 + 1 = j2 by omega]
          exact hnn2 r0 hr0
      · intro r hr
        obtain ⟨r0, hr0, rfl⟩ := List.mem_map.mp hr
        have hl0 : r0.length = tB.headers.length := hlen2 r0 hr0
        simp only [List.length_append, List.length_eraseIdx, hl0, herase_len]
        rw [if_pos (show jdur < tB.headers.length by omega)]
        rfl
  obtain ⟨j3, hj3, hname3, hnn3, hlen3⟩ := hC
  -- Stage D: dedup
  have hD_rows : ∀ r ∈ (dedupStep tC).rows, r ∈ tC.rows := by
    intro r hr
    have := (mem_dropDupAux [] tC.rows r).mp hr
    exact this.1
  -- Stage E: outliers
  refine ⟨j3, hj3, hname3, ?_⟩
  intro r hr
  obtain ⟨r0, hr0, rfl⟩ := List.mem_map.mp hr
  have hr0C : r0 ∈ tC.rows := hD_rows r0 hr0
  have hl0 : r0.length = tC.headers.length := hlen3 r0 hr0C
  rw [cellAt_mapIdx _ _ _ (by omega)]
  by_cases hdty : dtypeAt (dedupStep tC) j3 = .num
  · rw [if_pos hdty]
    exact clipCell_ne_null _ _ (hnn3 r0 hr0C)
  · rw [if_neg hdty]
    exact hnn3 r0 hr0C

/-- A one-column numeric table whose only value is missing. -/
def nullNumTable : Table := ⟨[("x", .num)], [[Cell.null]]⟩

/-- C10 counterexample: an all-null numeric column is never imputed — its
median is `NaN` and `fillna(NaN)` is a no-op — so a null survives the
whole pipeline in a column that existed at the imputation step,
contradicting the claim that every such column is null-free afterwards. -/
theorem pipeline_null_claim_cex :
    ("x", Dtype.num) ∈ (cleanTable nullNumTable).headers ∧
    cellAt ((cleanTable nullNumTable).rows.getD 0 []) 0 = .null := by
  decide

/-- C10 amended: after the full pipeline, every text column and every
numeric column with at least one non-null value (median defined) that
existed at the imputation step — other than the dropped `duration` column,
and assuming a well-typed, well-formed table whose column names do not
collide with the derived names — contains no null values; the derived
columns `duration_value`, `year_added` and `month_added` may still contain
nulls, since imputation is never re-applied after they are created and
clipping leaves nulls in place. -/
theorem pipeline_null_freedom_amended :
    (∀ (t : Table) (j : Nat), rowsWF t = true → wellTyped t = true →
      "year_added" ∉ colNames t → "month_added" ∉ colNames t →
      "duration_value" ∉ colNames t → "duration_unit" ∉ colNames t →
      j < t.headers.length →
      (t.headers.getD j ("", .obj)).1 ≠ "duration" →
      (dtypeAt t j = .obj ∨ (dtypeAt t j = .num ∧ colMedian (numColOf t j) ≠ none)) →
      ∃ j2, j2 < (cleanTable t).headers.length ∧
        ((cleanTable t).headers.getD j2 ("", .obj)).1 = (t.headers.getD j ("", .obj)).1 ∧
        ∀ r ∈ (cleanTable t).rows, cellAt r j2 ≠ .null) ∧
    (∃ (t : Table) (jv : Nat) (r : List Cell),
      ((cleanTable t).headers.getD jv ("", .obj)).1 = "duration_value" ∧
      r ∈ (cleanTable t).rows ∧ cellAt r jv = .null) ∧
    (∃ (t : Table) (jy jm : Nat) (r : List Cell),
      ((cleanTable t).headers.getD jy ("", .obj)).1 = "year_added" ∧
      ((cleanTable t).headers.getD jm ("", .obj)).1 = "month_added" ∧
      r ∈ (cleanTable t).rows ∧ cellAt r jy = .null ∧ cellAt r jm = .null) := by
  refine ⟨cleanTable_preserves_nonnull, ?_, ?_⟩
  · exact ⟨⟨[("duration", .obj)], [[Cell.s "two seasons"]]⟩, 0,
      [Cell.null, Cell.s "two seasons"], by decide, by decide, by decide⟩
  · exact ⟨⟨[("date_added", .obj)], [[Cell.s "soon"]]⟩, 1, 2,
      [Cell.s "", Cell.null, Cell.null], by decide, by decide, by decide, by decide,
      by decide⟩

/-- Witness for C10's amended theorem at `medTable`: both of its original
columns survive the pipeline null-free. -/
theorem pipeline_null_freedom_amended_witness :
    (∃ j2, j2 < (cleanTable medTable).headers.length ∧
      ((cleanTable medTable).headers.getD j2 ("", .obj)).1
        = (medTable.headers.getD 0 ("", .obj)).1 ∧
      ∀ r ∈ (cleanTable medTable).rows, cellAt r j2 ≠ .null) ∧
    (∃ j2, j2 < (cleanTable medTable).headers.length ∧
      ((cleanTable medTable).headers.getD j2 ("", .obj)).1
        = (medTable.headers.getD 1 ("", .obj)).1 ∧
      ∀ r ∈ (cleanTable medTable).rows, cellAt r j2 ≠ .null) := by
  constructor
  · exact pipeline_null_freedom_amended.1 medTable 0 (by decide) (by decide) (by decide)
      (by decide) (by decide) (by decide) (by decide) (by decide) (Or.inl rfl)
  · refine pipeline_null_freedom_amended.1 medTable 1 (by decide) (by decide) (by decide)
      (by decide) (by decide) (by decide) (by decide) (by decide) (Or.inr ⟨rfl, ?_⟩)
    rw [show numColOf medTable 1 = [some 1, none, some 3] from rfl]
    intro hcontra
    have h2 : colMedian [some 1, none, some 3] = some 2 := by
      norm_num [colMedian, colQuantile, quantileSorted, sortQ, interpAt, natFloor,
        List.insertionSort, List.orderedInsert, List.filterMap]
    rw [h2] at hcontra
    cases hcontra

end DataClean
